import Mathlib

/-!
Shallow embedding of the data-representation layer of the `tsl` repository
(`tsl/data/data.py`): the `StorageView` class (a key-filtered view over a
shared key-value store) and the `Data` record (store, `input`/`target` views,
per-key pattern strings, per-key transforms, and the einops-based
`rearrange_key` / `rearrange` operations).

Python dictionaries are embedded as association lists in insertion order with
unique keys; tensors as a shape plus row-major flat data; exceptions as an
explicit error type threaded through `Except` or a `Data × Option Err` result.
-/

namespace Tsl

/-- Python exceptions surfaced by the embedded code. `patternMismatch s k`
models the `RuntimeError` raised by `Data.rearrange_key` when the explicit
source pattern `s` (stripped) differs from the key's recorded pattern `k`;
the spec's error taxonomy calls this error `PatternMismatch`. -/
inductive Err where
  | keyError (key : String)
  | patternMismatch (startPattern keyPattern : String)
  | valueError (msg : String)
  | typeError (msg : String)
  | einopsError
deriving Repr, DecidableEq

deriving instance DecidableEq for Except

/-! ### Python string helpers

`str.strip` and `str.split(sep)` are modelled over the character list of the
string (`String.data`) with structural recursion, so that they evaluate inside
the kernel. -/

def isWS (c : Char) : Bool := c.isWhitespace

/-- Model of Python `str.strip()`: remove leading and trailing whitespace. -/
def pyStrip (s : String) : String :=
  ⟨((s.data.dropWhile isWS).reverse.dropWhile isWS).reverse⟩

/-- Splitting worker: split a character list at every occurrence of the
non-empty separator `sep`; `fuel` bounds the recursion depth. -/
def splitSeqAux (sep : List Char) : Nat → List Char → List (List Char)
  | 0, l => [l]
  | Nat.succ fuel, l =>
    match l with
    | [] => [[]]
    | c :: rest =>
      if sep.isPrefixOf (c :: rest) then
        [] :: splitSeqAux sep fuel ((c :: rest).drop sep.length)
      else
        match splitSeqAux sep fuel rest with
        | [] => [[c]]
        | h :: t => (c :: h) :: t

/-- Model of Python `s.split(sep)` for a non-empty separator `sep` (as used by
`rearrange_key` for `'->'` and by the einops axis parser for spaces). -/
def pySplit (s sep : String) : List String :=
  (splitSeqAux sep.data (s.data.length + 1) s.data).map (fun l => ⟨l⟩)

/-! ### Tensors and einops rearrangement -/

/-- A tensor: a shape and row-major flat data. -/
structure Tensor where
  shape : List Nat
  data : List Int
deriving Repr, DecidableEq

def listProd : List Nat → Nat
  | [] => 1
  | n :: rest => n * listProd rest

/-- Row-major flat index of a multi-index in a shape. -/
def encodeIdx : List Nat → List Nat → Nat
  | i :: is, _ :: ss => i * listProd ss + encodeIdx is ss
  | _, _ => 0

/-- Multi-index of a row-major flat index in a shape. -/
def decodeIdx : Nat → List Nat → List Nat
  | _, [] => []
  | flat, _ :: ss => flat / listProd ss :: decodeIdx (flat % listProd ss) ss

/-- Position of the first occurrence of `a` in a list of axis names. -/
def idxOf (a : String) : List String → Nat
  | [] => 0
  | b :: rest => if b = a then 0 else idxOf a rest + 1

/-- Axis names of an einops pattern string: whitespace-separated tokens. -/
def axesOf (p : String) : List String :=
  (pySplit p " ").filter (fun a => a ≠ "")

def nodupB : List String → Bool
  | [] => true
  | a :: rest => if a ∈ rest then false else nodupB rest

/-- Validity of an axis-permutation pattern for a tensor of the given rank:
no duplicated axis names, matching rank, and the destination axes a
permutation of the source axes. -/
def validAxes (sa da : List String) (rank : Nat) : Bool :=
  nodupB sa && nodupB da && (sa.length == rank) && (da.length == sa.length)
    && da.all (fun x => decide (x ∈ sa))

/-- Transpose `t` from source axes `sa` to destination axes `da`: output axis
`i` (named `da[i]`) is the input axis at the position of `da[i]` in `sa`. -/
def permuteTensor (t : Tensor) (sa da : List String) : Tensor :=
  let outShape := da.map (fun n => t.shape.getD (idxOf n sa) 0)
  { shape := outShape
    data := (List.range (listProd outShape)).map (fun flat =>
      let outIdx := decodeIdx flat outShape
      let inIdx := sa.map (fun n => outIdx.getD (idxOf n da) 0)
      t.data.getD (encodeIdx inIdx t.shape) 0) }

/-- Model of `einops.rearrange` restricted to pure axis permutations — the
only patterns the repository's rearrange operations are exercised with.
Anything else (invalid axes, rank mismatch, non-permutation patterns) is an
einops error. -/
def einopsRearrange (t : Tensor) (src dst : String) : Except Err Tensor :=
  let sa := axesOf src
  let da := axesOf dst
  if validAxes sa da t.shape.length then Except.ok (permuteTensor t sa da)
  else Except.error Err.einopsError

/-! ### The key-value store (Python dict in insertion order) -/

abbrev Store (α : Type) := List (String × α)

variable {α β : Type}

def alookup : Store α → String → Option α
  | [], _ => none
  | (k, v) :: rest, key => if k = key then some v else alookup rest key

def containsKey (s : Store α) (k : String) : Bool := (alookup s k).isSome

/-- `dict[key] = value`: replace in place, or append a new binding. -/
def upsert : Store α → String → α → Store α
  | [], key, x => [(key, x)]
  | (k, v) :: rest, key, x =>
    if k = key then (key, x) :: rest else (k, v) :: upsert rest key x

/-- `del dict[key]`. -/
def eraseKey (s : Store α) (key : String) : Store α :=
  s.filter (fun p => decide (p.1 ≠ key))

/-- `dict[key]` as a fallible read (`KeyError` when absent). -/
def lookupE (s : Store α) (k : String) : Except Err α :=
  match alookup s k with
  | some x => Except.ok x
  | none => Except.error (Err.keyError k)

/-- Left-to-right iteration that stops at the first raised error, as a Python
`for` loop over keys does. -/
def mapExcept (f : String → Except Err β) : List String → Except Err (List β)
  | [] => Except.ok []
  | k :: rest =>
    match f k with
    | Except.error e => Except.error e
    | Except.ok x =>
      match mapExcept f rest with
      | Except.error e => Except.error e
      | Except.ok xs => Except.ok (x :: xs)

/-! ### StorageView

`StorageView` holds a reference to the shared store (`self._mapping`) and an
owned tuple of active keys (`self.__keys`). The shared store is passed
explicitly to every operation; the view's own state is just the key tuple. -/

structure StorageView where
  akeys : List String
deriving Repr, DecidableEq

/-- The `keys` argument of `StorageView.__init__` / the `_keys` assignment:
`None`, a single key, or a sequence of keys. -/
inductive KeysArg where
  | noneArg
  | single (k : String)
  | seq (ks : List String)
deriving Repr, DecidableEq

/-- Order-preserving deduplication of a key sequence: each key keeps its
first occurrence. -/
def dedupKeys : List String → List String
  | [] => []
  | k :: rest => k :: (dedupKeys rest).filter (fun x => decide (x ≠ k))

/-- Modelled from the spec: `ensure_list` (from `tsl.utils.python_utils`) is
not among the sources, and it is the only step of view construction that can
realize the spec's construction contract — "active key set = deduplicated
`keys` (accepts none, single key, or a sequence)" — since `__setattr__`
stores `tuple(keys)` verbatim. So a single key is wrapped in a one-element
list and a sequence is deduplicated preserving the order of first
occurrences. The `None` case is handled by `__setattr__` itself. -/
def ensureList : KeysArg → List String
  | KeysArg.noneArg => []
  | KeysArg.single k => [k]
  | KeysArg.seq ks => dedupKeys ks

/-- `StorageView.__setattr__('_keys', value)`: `__keys := tuple(keys)` where
`keys` is `[]` for `None` and `ensure_list(value)` otherwise. -/
def keysAttr (value : KeysArg) : List String := ensureList value

/-- `StorageView.__init__(store, keys)`: records the store reference and sets
the active key tuple from `keys`. -/
def StorageView.mkView (keys : KeysArg) : StorageView := ⟨keysAttr keys⟩

/-- The `_keys` property: active keys filtered by presence in the backing
store (lazy intersection). -/
def StorageView.effectiveKeys (v : StorageView) (s : Store α) : List String :=
  v.akeys.filter (fun k => containsKey s k)

/-- `StorageView.__len__`: `len(self._keys)` — the `_keys` property. -/
def StorageView.lenFn (v : StorageView) (s : Store α) : Nat :=
  (v.effectiveKeys s).length

/-- `StorageView._filter_keys(args)`. -/
def StorageView.filterKeys (v : StorageView) (s : Store α)
    (args : List String) : List String :=
  if args.length ≠ 0 then args.filter (fun a => decide (a ∈ v.effectiveKeys s))
  else v.effectiveKeys s

/-- The `_keys()` of a torch-geometric `MappingView` built over the store with
the given args: all the store's keys when no args, else the args filtered by
presence in the store. -/
def mvKeys (s : Store α) (args : List String) : List String :=
  if args.length = 0 then s.map Prod.fst
  else args.filter (fun k => containsKey s k)

/-- `StorageView.keys(*args)`: the enumerated key sequence. -/
def StorageView.keysFn (v : StorageView) (s : Store α)
    (args : List String) : List String :=
  let ks := v.filterKeys s args
  if 0 < ks.length then mvKeys s ks else []

/-- `StorageView.values(*args)`: each enumerated key is read from the store
(`mapping[key]`, a fallible access). -/
def StorageView.valuesFn (v : StorageView) (s : Store α)
    (args : List String) : Except Err (List α) :=
  let ks := v.filterKeys s args
  if 0 < ks.length then mapExcept (lookupE s) (mvKeys s ks)
  else Except.ok []

/-- The per-key step of `StorageView.items(*args)`: the `(key, mapping[key])`
pair, with the fallible dict access. -/
def itemAt (s : Store α) (k : String) : Except Err (String × α) :=
  match alookup s k with
  | some x => Except.ok (k, x)
  | none => Except.error (Err.keyError k)

/-- `StorageView.items(*args)`. -/
def StorageView.itemsFn (v : StorageView) (s : Store α)
    (args : List String) : Except Err (List (String × α)) :=
  let ks := v.filterKeys s args
  if 0 < ks.length then mapExcept (itemAt s) (mvKeys s ks)
  else Except.ok []

/-- `StorageView.__getitem__`: the store's value when the item is in the
effective key set, else `KeyError`. -/
def StorageView.getItem (v : StorageView) (s : Store α)
    (item : String) : Except Err α :=
  if item ∈ v.effectiveKeys s then lookupE s item
  else Except.error (Err.keyError item)

/-- `StorageView.add_keys(*keys)`: the new keys (deduplicated, minus those
already active) are appended to the active tuple. -/
def StorageView.addKeys (v : StorageView) (ks : List String) : StorageView :=
  ⟨v.akeys ++ ks.eraseDups.filter (fun k => decide (k ∉ v.akeys))⟩

/-- `StorageView.del_keys(*keys)`: drop the given keys from the active tuple;
nothing else is touched. -/
def StorageView.delKeys (v : StorageView) (ks : List String) : StorageView :=
  ⟨v.akeys.filter (fun k => decide (k ∉ ks))⟩

/-- `StorageView.__setitem__`: write through to the shared store, then
`add_keys(key)`. -/
def StorageView.setItem (v : StorageView) (s : Store α) (key : String)
    (x : α) : Store α × StorageView :=
  (upsert s key x, v.addKeys [key])

/-- `StorageView.__delitem__`: delete from the shared store (`BaseStorage`
ignores an absent key), then `del_keys(key)`. -/
def StorageView.delItem (v : StorageView) (s : Store α)
    (key : String) : Store α × StorageView :=
  (eraseKey s key, v.delKeys [key])

/-- `del_keys` as a state-passing operation on (store, view): the method body
only reassigns `self.__keys`, so the store passes through untouched. -/
def StorageView.delKeysOp (v : StorageView) (s : Store α)
    (ks : List String) : Store α × StorageView :=
  (s, v.delKeys ks)

/-! ### Data -/

/-- Modelled from the spec: the per-key transform (a `Scaler` from
`tsl.data.preprocessing`, not among the sources) carries "internal axis
bookkeeping", and its `rearrange` "rewrites that bookkeeping to the
destination pattern". Only that bookkeeping is modelled. -/
structure Transform where
  pattern : String
deriving Repr, DecidableEq

/-- `Scaler.rearrange(pattern)` — see `Transform`. -/
def Transform.rearrangeTr (_tr : Transform) (p : String) : Transform :=
  { pattern := p }

/-- The `Data` record: the shared store, the `input` and `target` views over
it, the per-key pattern strings, and the per-key transforms. (In the source
the transform dict itself lives in the shared store under the key
`'transform'`; it is kept as a separate field here, with the same contents.) -/
structure Data where
  store : Store Tensor
  inputView : StorageView
  targetView : StorageView
  pattern : Store String
  transform : Store Transform
deriving Repr, DecidableEq

/-- `Data.__init__(input, target, mask, transform, pattern, **kwargs)`:
`super().__init__(**input, **target, **kwargs)` builds the store from the
three mappings — Python raises `TypeError` at the call when the same name
appears in two of the unpacked mappings; then `self.mask = mask` (the base
storage deletes/skips a `None` value), the `input`/`target` views are built
over the respective key sets, and the transform and pattern maps recorded. -/
def Data.init (input target : Store Tensor) (mask : Option Tensor)
    (transform : Store Transform) (pattern : Store String)
    (kwargs : Store Tensor) : Except Err Data :=
  if (input.map Prod.fst ++ target.map Prod.fst ++ kwargs.map Prod.fst).Nodup
  then
    let base : Store Tensor := input ++ target ++ kwargs
    let base : Store Tensor :=
      match mask with
      | none => eraseKey base "mask"
      | some m => upsert base "mask" m
    Except.ok { store := base
                inputView := ⟨input.map Prod.fst⟩
                targetView := ⟨target.map Prod.fst⟩
                pattern := pattern
                transform := transform }
  else Except.error (Err.typeError "got multiple values for keyword argument")

/-- The pattern-expression analysis of `Data.rearrange_key`: with `'->'`
present, the stripped source must equal the key's recorded pattern, else the
`RuntimeError` (the spec's `PatternMismatch`); without `'->'` the source is
the recorded pattern and the destination is the expression itself. -/
def parsePatternExpr (keyPattern patternExpr : String) :
    Except Err (String × String) :=
  match pySplit patternExpr "->" with
  | [_single] => Except.ok (keyPattern, patternExpr)
  | [s, e] =>
    if keyPattern = pyStrip s then Except.ok (pyStrip s, pyStrip e)
    else Except.error (Err.patternMismatch (pyStrip s) keyPattern)
  | _ => Except.error (Err.valueError "too many values to unpack")

/-- `Data.rearrange_key(key, pattern)`: validate the pattern expression
against `self.pattern[key]`, rewrite the stored value with einops, record the
destination pattern, and rearrange the key's transform when there is one.
The result pairs the record state at return/raise time with the raised
error, if any (every raise happens before the first mutation). -/
def Data.rearrange_key (d : Data) (key patternExpr : String) :
    Data × Option Err :=
  match alookup d.pattern key with
  | none => (d, some (Err.keyError key))
  | some keyPattern =>
    match parsePatternExpr keyPattern patternExpr with
    | Except.error e => (d, some e)
    | Except.ok (src, dst) =>
      match alookup d.store key with
      | none => (d, some (Err.keyError key))
      | some t =>
        match einopsRearrange t src dst with
        | Except.error e => (d, some e)
        | Except.ok t2 =>
          ({ store := upsert d.store key t2
             inputView := d.inputView
             targetView := d.targetView
             pattern := upsert d.pattern key dst
             transform :=
               match alookup d.transform key with
               | some tr => upsert d.transform key (tr.rearrangeTr dst)
               | none => d.transform }, none)

/-- `Data.rearrange(patterns)`: `rearrange_key` for every pair in iteration
order; an exception propagates immediately, keeping the state reached so
far. -/
def Data.rearrange : Data → List (String × String) → Data × Option Err
  | d, [] => (d, none)
  | d, (k, p) :: rest =>
    match Data.rearrange_key d k p with
    | (d2, none) => Data.rearrange d2 rest
    | (d2, some e) => (d2, some e)

/-- The list held by an `Except` result, or `[]` on an error. -/
def exceptD (r : Except Err (List β)) : List β :=
  match r with
  | Except.ok xs => xs
  | Except.error _ => []

/-! ### Helper lemmas about the store -/

theorem alookup_upsert_self (s : Store α) (k : String) (x : α) :
    alookup (upsert s k x) k = some x := by
  induction s with
  | nil => simp [upsert, alookup]
  | cons p rest ih =>
    obtain ⟨k', v⟩ := p
    by_cases h : k' = k
    · subst h; simp [upsert, alookup]
    · simp [upsert, alookup, h, ih]

theorem alookup_eraseKey_self (s : Store α) (k : String) :
    alookup (eraseKey s k) k = none := by
  induction s with
  | nil => rfl
  | cons p rest ih =>
    obtain ⟨k', v⟩ := p
    by_cases h : k' = k
    · subst h
      simpa [eraseKey, List.filter_cons] using ih
    · simpa [eraseKey, List.filter_cons, h, alookup] using ih

theorem containsKey_eraseKey_self (s : Store α) (k : String) :
    containsKey (eraseKey s k) k = false := by
  simp [containsKey, alookup_eraseKey_self]

theorem containsKey_iff_mem_fst (s : Store α) (k : String) :
    containsKey s k = true ↔ k ∈ s.map Prod.fst := by
  induction s with
  | nil => simp [containsKey, alookup]
  | cons p rest ih =>
    obtain ⟨k', v⟩ := p
    by_cases h : k' = k
    · subst h; simp [containsKey, alookup]
    · simpa [containsKey, alookup, h, Ne.symm h] using ih

theorem mapExcept_lookupE_ok (s : Store α) (l : List String)
    (h : ∀ k ∈ l, containsKey s k = true) :
    ∃ xs, mapExcept (lookupE s) l = Except.ok xs := by
  induction l with
  | nil => exact ⟨[], rfl⟩
  | cons a rest ih =>
    have ha := h a (List.mem_cons_self a rest)
    obtain ⟨x, hx⟩ : ∃ x, alookup s a = some x := by
      cases hl : alookup s a with
      | none => rw [containsKey, hl] at ha; simp at ha
      | some x => exact ⟨x, rfl⟩
    obtain ⟨xs, hxs⟩ := ih (fun k hk => h k (List.mem_cons_of_mem a hk))
    exact ⟨x :: xs, by simp [mapExcept, lookupE, hx, hxs]⟩

theorem mapExcept_items_ok (s : Store α) (l : List String)
    (h : ∀ k ∈ l, containsKey s k = true) :
    ∃ ps, mapExcept (itemAt s) l = Except.ok ps ∧ ps.map Prod.fst = l := by
  induction l with
  | nil => exact ⟨[], rfl, rfl⟩
  | cons a rest ih =>
    have ha := h a (List.mem_cons_self a rest)
    obtain ⟨x, hx⟩ : ∃ x, alookup s a = some x := by
      cases hl : alookup s a with
      | none => rw [containsKey, hl] at ha; simp at ha
      | some x => exact ⟨x, rfl⟩
    obtain ⟨ps, hps, hfst⟩ := ih (fun k hk => h k (List.mem_cons_of_mem a hk))
    exact ⟨(a, x) :: ps, by simp [mapExcept, itemAt, hx, hps], by simp [hfst]⟩

/-- A concrete scalar-like tensor used by the concrete instances below. -/
def t0 : Tensor := ⟨[1], [0]⟩

/-! ### C9 -/

/-- C9: whenever the input map and the target map share a key, `Data`
construction fails with Python's duplicate-keyword `TypeError` (the store is
never built, so neither value is silently kept). -/
theorem C9_shared_key_construction_fails
    (input target : Store Tensor) (mask : Option Tensor)
    (transform : Store Transform) (pattern : Store String)
    (kwargs : Store Tensor) (k : String)
    (hin : k ∈ input.map Prod.fst) (htg : k ∈ target.map Prod.fst) :
    Data.init input target mask transform pattern kwargs =
      Except.error (Err.typeError "got multiple values for keyword argument") := by
  have hnd : ¬ (input.map Prod.fst ++ (target.map Prod.fst ++
      kwargs.map Prod.fst)).Nodup := by
    intro h
    rcases List.nodup_append.mp h with ⟨-, -, hdisj⟩
    exact hdisj hin (List.mem_append_left _ htg)
  simp [Data.init, hnd]

/-- C9 witness: construction with `input = {'x': ...}` and
`target = {'x': ...}` fails. -/
theorem C9_witness :
    Data.init [("x", t0)] [("x", t0)] none [] [] [] =
      Except.error (Err.typeError "got multiple values for keyword argument") :=
  C9_shared_key_construction_fails [("x", t0)] [("x", t0)] none [] [] [] "x"
    (by decide) (by decide)

/-! ### C10 -/

/-- C10: `del_keys` removes the key only from the view's own active key set:
the backing store passes through unchanged, the key's value is still in the
store and still readable through any other view whose active set contains it
— unlike `__delitem__`, which also removes it from the store. -/
theorem C10_del_keys_touches_only_view
    (s : Store Tensor) (v w : StorageView) (ks : List String) (k : String)
    (x : Tensor) (hk : k ∈ ks) (hs : alookup s k = some x)
    (hw : k ∈ w.akeys) :
    (v.delKeysOp s ks).1 = s ∧
    k ∉ ((v.delKeysOp s ks).2).akeys ∧
    alookup (v.delKeysOp s ks).1 k = some x ∧
    w.getItem (v.delKeysOp s ks).1 k = Except.ok x ∧
    alookup (v.delItem s k).1 k = none := by
  have hc : containsKey s k = true := by simp [containsKey, hs]
  refine ⟨rfl, ?_, hs, ?_, ?_⟩
  · simp [StorageView.delKeysOp, StorageView.delKeys, List.mem_filter, hk]
  · have hmem : k ∈ w.effectiveKeys s := by
      simp [StorageView.effectiveKeys, List.mem_filter, hw, hc]
    simp [StorageView.delKeysOp, StorageView.getItem, hmem, lookupE, hs]
  · simp [StorageView.delItem, alookup_eraseKey_self]

/-- C10 witness: concrete two-view store where one view drops "x" from its
active set while the other still reads it. -/
theorem C10_witness :
    ((⟨["x"]⟩ : StorageView).delKeysOp ([("x", t0)] : Store Tensor) ["x"]).1 =
      [("x", t0)] ∧
    "x" ∉ (((⟨["x"]⟩ : StorageView).delKeysOp
      ([("x", t0)] : Store Tensor) ["x"]).2).akeys ∧
    alookup ((⟨["x"]⟩ : StorageView).delKeysOp
      ([("x", t0)] : Store Tensor) ["x"]).1 "x" = some t0 ∧
    StorageView.getItem ⟨["x"]⟩ ((⟨["x"]⟩ : StorageView).delKeysOp
      ([("x", t0)] : Store Tensor) ["x"]).1 "x" = Except.ok t0 ∧
    alookup ((⟨["x"]⟩ : StorageView).delItem
      ([("x", t0)] : Store Tensor) "x").1 "x" = none :=
  C10_del_keys_touches_only_view [("x", t0)] ⟨["x"]⟩ ⟨["x"]⟩ ["x"] "x" t0
    (by decide) (by decide) (by decide)

/-! ### C3 -/

/-- C3 counterexample: after writing key "x" through one view over an empty
store, reading "x" through a second view whose active key set does not
contain "x" raises `KeyError` instead of returning the written value — so
the claim does not hold for every pair of views and every key. -/
theorem C3_counterexample :
    ¬ (StorageView.getItem (StorageView.mkView KeysArg.noneArg)
        ((StorageView.mkView KeysArg.noneArg).setItem
          ([] : Store Tensor) "x" t0).1 "x" = Except.ok t0) := by decide

/-- C3 (amended): a write through one view is visible when reading the same
key through any other view over the same store whose active key set contains
that key. -/
theorem C3_write_visible_across_views
    (s : Store Tensor) (v w : StorageView) (k : String) (x : Tensor)
    (hw : k ∈ w.akeys) :
    w.getItem (v.setItem s k x).1 k = Except.ok x := by
  have h1 : alookup (upsert s k x) k = some x := alookup_upsert_self s k x
  have hc : containsKey (upsert s k x) k = true := by simp [containsKey, h1]
  have hmem : k ∈ w.effectiveKeys (upsert s k x) := by
    simp [StorageView.effectiveKeys, List.mem_filter, hw, hc]
  simp [StorageView.setItem, StorageView.getItem, hmem, lookupE, h1]

/-- C3 witness: the write through the first view is read back through a
second view that has "x" active. -/
theorem C3_witness :
    StorageView.getItem ⟨["x"]⟩
      ((StorageView.mkView KeysArg.noneArg).setItem
        ([] : Store Tensor) "x" t0).1 "x" = Except.ok t0 :=
  C3_write_visible_across_views [] (StorageView.mkView KeysArg.noneArg)
    ⟨["x"]⟩ "x" t0 (by decide)

/-! ### C6 -/

/-- C6 counterexample: a view recording active keys ["a", "b"] over a store
holding only "a" has `len() = 1`, not the recorded count 2 — `__len__` reads
the `_keys` property, which filters by presence in the store. -/
theorem C6_counterexample :
    StorageView.lenFn ⟨["a", "b"]⟩ ([("a", t0)] : Store Tensor) ≠
      (StorageView.akeys ⟨["a", "b"]⟩).length := by decide

/-- C6 (amended): `len()` returns the count of the view's active keys that
are currently present in the backing store (the effective keys); an active
key absent from the store is not counted, so the result is strictly below
the recorded count whenever such a key exists. -/
theorem C6_len_counts_live_keys (s : Store α) (v : StorageView)
    (h : ∃ k, k ∈ v.akeys ∧ containsKey s k = false) :
    v.lenFn s = (v.akeys.filter (fun k => containsKey s k)).length ∧
    v.lenFn s < v.akeys.length := by
  refine ⟨rfl, ?_⟩
  obtain ⟨k, hk, hnc⟩ := h
  have : (v.akeys.filter (fun k => containsKey s k)).length < v.akeys.length := by
    rw [List.length_filter_lt_length_iff_exists]
    exact ⟨k, hk, by simp [hnc]⟩
  exact this

/-- C6 witness: instance of the amended statement on the counterexample
store/view. -/
theorem C6_witness :
    StorageView.lenFn ⟨["a", "b"]⟩ ([("a", t0)] : Store Tensor) =
      ((["a", "b"] : List String).filter
        (fun k => containsKey ([("a", t0)] : Store Tensor) k)).length ∧
    StorageView.lenFn ⟨["a", "b"]⟩ ([("a", t0)] : Store Tensor) <
      (["a", "b"] : List String).length :=
  C6_len_counts_live_keys [("a", t0)] ⟨["a", "b"]⟩ ⟨"b", by decide, by decide⟩

/-! ### C7 -/

theorem dedupKeys_nodup (l : List String) : (dedupKeys l).Nodup := by
  induction l with
  | nil => exact List.nodup_nil
  | cons a rest ih =>
    simp only [dedupKeys]
    rw [List.nodup_cons]
    constructor
    · intro hmem
      have := List.mem_filter.mp hmem
      simp at this
    · exact ih.filter _

theorem dedupKeys_mem (l : List String) (x : String) :
    x ∈ dedupKeys l ↔ x ∈ l := by
  induction l with
  | nil => exact Iff.rfl
  | cons a rest ih =>
    by_cases hxa : x = a
    · subst hxa
      simp [dedupKeys]
    · simp [dedupKeys, List.mem_filter, hxa, ih]

/-- C7: constructing a view with any key sequence (repeated keys allowed)
produces as active key set the deduplicated sequence — no key appears twice,
exactly the given keys are active, and order of first occurrences is kept;
`None` gives the empty set and a single key a singleton. -/
theorem C7_construct_deduplicates (ks : List String) (k : String) :
    (StorageView.mkView (KeysArg.seq ks)).akeys = dedupKeys ks ∧
    (StorageView.mkView (KeysArg.seq ks)).akeys.Nodup ∧
    (∀ k2, k2 ∈ (StorageView.mkView (KeysArg.seq ks)).akeys ↔ k2 ∈ ks) ∧
    (StorageView.mkView KeysArg.noneArg).akeys = [] ∧
    (StorageView.mkView (KeysArg.single k)).akeys = [k] :=
  ⟨rfl, dedupKeys_nodup ks, fun k2 => dedupKeys_mem ks k2, rfl, rfl⟩

/-- C7 witness: the statement at the duplicated concrete sequence
["a", "a"], whose constructed active key set evaluates to ["a"]. -/
theorem C7_witness :
    ((StorageView.mkView (KeysArg.seq ["a", "a"])).akeys =
        dedupKeys ["a", "a"] ∧
      (StorageView.mkView (KeysArg.seq ["a", "a"])).akeys.Nodup ∧
      (∀ k2, k2 ∈ (StorageView.mkView (KeysArg.seq ["a", "a"])).akeys ↔
        k2 ∈ ["a", "a"]) ∧
      (StorageView.mkView KeysArg.noneArg).akeys = [] ∧
      (StorageView.mkView (KeysArg.single "z")).akeys = ["z"]) ∧
    (StorageView.mkView (KeysArg.seq ["a", "a"])).akeys = ["a"] :=
  ⟨C7_construct_deduplicates ["a", "a"] "z", by decide⟩

/-! ### C2 -/

theorem effectiveKeys_mem (v : StorageView) (s : Store α) (k : String)
    (h : k ∈ v.effectiveKeys s) : k ∈ v.akeys ∧ containsKey s k = true := by
  have := List.mem_filter.mp h
  simpa using this

theorem effectiveKeys_filter_self (v : StorageView) (s : Store α) :
    (v.effectiveKeys s).filter (fun k => containsKey s k) =
      v.effectiveKeys s := by
  rw [List.filter_eq_self]
  exact fun a ha => (effectiveKeys_mem v s a ha).2

/-- With no selector args, `keys()` enumerates exactly the effective keys. -/
theorem keysFn_nil (v : StorageView) (s : Store α) :
    v.keysFn s [] = v.effectiveKeys s := by
  unfold StorageView.keysFn StorageView.filterKeys mvKeys
  simp only [List.length_nil, ne_eq, not_true_eq_false, if_false]
  by_cases h : v.effectiveKeys s = []
  · simp [h]
  · have hpos : 0 < (v.effectiveKeys s).length := List.length_pos.mpr h
    have hne : ¬ (v.effectiveKeys s).length = 0 := Nat.pos_iff_ne_zero.mp hpos
    simp [hpos, hne, effectiveKeys_filter_self]

/-- With no selector args, `values()` reads exactly the effective keys. -/
theorem valuesFn_nil (v : StorageView) (s : Store α) :
    v.valuesFn s [] = mapExcept (lookupE s) (v.effectiveKeys s) := by
  unfold StorageView.valuesFn StorageView.filterKeys mvKeys
  simp only [List.length_nil, ne_eq, not_true_eq_false, if_false]
  by_cases h : v.effectiveKeys s = []
  · simp [h, mapExcept]
  · have hpos : 0 < (v.effectiveKeys s).length := List.length_pos.mpr h
    have hne : ¬ (v.effectiveKeys s).length = 0 := Nat.pos_iff_ne_zero.mp hpos
    simp [hpos, hne, effectiveKeys_filter_self]

/-- With no selector args, `items()` reads exactly the effective keys. -/
theorem itemsFn_nil (v : StorageView) (s : Store α) :
    v.itemsFn s [] = mapExcept (itemAt s) (v.effectiveKeys s) := by
  unfold StorageView.itemsFn StorageView.filterKeys mvKeys
  simp only [List.length_nil, ne_eq, not_true_eq_false, if_false]
  by_cases h : v.effectiveKeys s = []
  · simp [h, mapExcept]
  · have hpos : 0 < (v.effectiveKeys s).length := List.length_pos.mpr h
    have hne : ¬ (v.effectiveKeys s).length = 0 := Nat.pos_iff_ne_zero.mp hpos
    simp [hpos, hne, effectiveKeys_filter_self]

/-- C2: a view's enumeration is lazily filtered by the backing store —
every enumerated key is one of the view's active keys and is present in the
store; and after a key is deleted from the store (not via the view), that
key disappears from `keys()`/`items()`, `values()`/`items()` still succeed
without error, and `__getitem__` on the deleted key fails with `KeyError`
(the key is treated as absent). -/
theorem C2_view_lazy_filtering (s : Store Tensor) (v : StorageView)
    (k : String) :
    v.keysFn s [] ⊆ v.akeys ∧
    v.keysFn s [] ⊆ s.map Prod.fst ∧
    k ∉ v.keysFn (eraseKey s k) [] ∧
    (v.valuesFn (eraseKey s k) []).isOk = true ∧
    (v.itemsFn (eraseKey s k) []).isOk = true ∧
    k ∉ (exceptD (v.itemsFn (eraseKey s k) [])).map Prod.fst ∧
    v.getItem (eraseKey s k) k = Except.error (Err.keyError k) := by
  have hall : ∀ k' ∈ v.effectiveKeys (eraseKey s k),
      containsKey (eraseKey s k) k' = true :=
    fun k' hk' => (effectiveKeys_mem v _ k' hk').2
  have hknot : k ∉ v.effectiveKeys (eraseKey s k) := by
    intro hmem
    have := (effectiveKeys_mem v _ k hmem).2
    rw [containsKey_eraseKey_self] at this
    exact Bool.false_ne_true this
  obtain ⟨xs, hxs⟩ := mapExcept_lookupE_ok (eraseKey s k) _ hall
  obtain ⟨ps, hps, hfst⟩ := mapExcept_items_ok (eraseKey s k) _ hall
  refine ⟨?_, ?_, ?_, ?_, ?_, ?_, ?_⟩
  · intro a ha
    rw [keysFn_nil] at ha
    exact (effectiveKeys_mem v s a ha).1
  · intro a ha
    rw [keysFn_nil] at ha
    exact (containsKey_iff_mem_fst s a).mp (effectiveKeys_mem v s a ha).2
  · rw [keysFn_nil]
    exact hknot
  · rw [valuesFn_nil, hxs]
    rfl
  · rw [itemsFn_nil, hps]
    rfl
  · rw [itemsFn_nil, hps]
    show k ∉ ps.map Prod.fst
    rw [hfst]
    exact hknot
  · rw [StorageView.getItem, if_neg hknot]

/-- C2 witness: the lazy-filtering statement at a concrete store and view. -/
theorem C2_witness :
    (⟨["a"]⟩ : StorageView).keysFn ([("a", t0)] : Store Tensor) [] ⊆
      (⟨["a"]⟩ : StorageView).akeys ∧
    (⟨["a"]⟩ : StorageView).keysFn ([("a", t0)] : Store Tensor) [] ⊆
      ([("a", t0)] : Store Tensor).map Prod.fst ∧
    "a" ∉ (⟨["a"]⟩ : StorageView).keysFn
      (eraseKey ([("a", t0)] : Store Tensor) "a") [] ∧
    ((⟨["a"]⟩ : StorageView).valuesFn
      (eraseKey ([("a", t0)] : Store Tensor) "a") []).isOk = true ∧
    ((⟨["a"]⟩ : StorageView).itemsFn
      (eraseKey ([("a", t0)] : Store Tensor) "a") []).isOk = true ∧
    "a" ∉ (exceptD ((⟨["a"]⟩ : StorageView).itemsFn
      (eraseKey ([("a", t0)] : Store Tensor) "a") [])).map Prod.fst ∧
    StorageView.getItem ⟨["a"]⟩
      (eraseKey ([("a", t0)] : Store Tensor) "a") "a" =
      Except.error (Err.keyError "a") :=
  C2_view_lazy_filtering [("a", t0)] ⟨["a"]⟩ "a"

/-! ### C1 -/

/-- C1: given an explicit source pattern whose stripped form differs from
the key's recorded pattern, `rearrange_key` raises the `PatternMismatch`
error before any mutation — the record is returned unchanged, so the key's
stored value, its recorded pattern, and its transform (if any) are exactly
as before the failed call. -/
theorem C1_pattern_mismatch_leaves_state
    (d : Data) (key patternExpr s e kp : String)
    (hkp : alookup d.pattern key = some kp)
    (hsplit : pySplit patternExpr "->" = [s, e])
    (hne : pyStrip s ≠ kp) :
    d.rearrange_key key patternExpr =
      (d, some (Err.patternMismatch (pyStrip s) kp)) ∧
    alookup (d.rearrange_key key patternExpr).1.store key =
      alookup d.store key ∧
    alookup (d.rearrange_key key patternExpr).1.pattern key = some kp ∧
    alookup (d.rearrange_key key patternExpr).1.transform key =
      alookup d.transform key := by
  have hparse : parsePatternExpr kp patternExpr =
      Except.error (Err.patternMismatch (pyStrip s) kp) := by
    unfold parsePatternExpr
    rw [hsplit]
    simp only []
    rw [if_neg (fun h => hne h.symm)]
  have hmain : d.rearrange_key key patternExpr =
      (d, some (Err.patternMismatch (pyStrip s) kp)) := by
    unfold Data.rearrange_key
    simp only [hkp, hparse]
  refine ⟨hmain, ?_, ?_, ?_⟩
  · rw [hmain]
  · rw [hmain]
    exact hkp
  · rw [hmain]

/-- A concrete record for the C1 witness: key "x" with recorded pattern
"t n". -/
def dC1 : Data :=
  ⟨[("x", t0)], ⟨["x"]⟩, ⟨[]⟩, [("x", "t n")], [("x", ⟨"t n"⟩)]⟩

/-- C1 witness: `rearrange_key("x", "a b -> b a")` on a key recorded as
"t n" fails with the mismatch error and changes nothing. -/
theorem C1_witness :
    dC1.rearrange_key "x" "a b -> b a" =
      (dC1, some (Err.patternMismatch (pyStrip "a b ") "t n")) ∧
    alookup (dC1.rearrange_key "x" "a b -> b a").1.store "x" =
      alookup dC1.store "x" ∧
    alookup (dC1.rearrange_key "x" "a b -> b a").1.pattern "x" =
      some "t n" ∧
    alookup (dC1.rearrange_key "x" "a b -> b a").1.transform "x" =
      alookup dC1.transform "x" :=
  C1_pattern_mismatch_leaves_state dC1 "x" "a b -> b a" "a b " " b a" "t n"
    (by decide) (by decide) (by decide)

/-! ### C5 -/

/-- Every error path of `rearrange_key` returns the record unchanged (the
raise always happens before the first mutation). -/
theorem rearrange_key_error_state (d : Data) (k p : String) (e : Err)
    (h : (d.rearrange_key k p).2 = some e) : (d.rearrange_key k p).1 = d := by
  cases hp : alookup d.pattern k with
  | none => simp [Data.rearrange_key, hp]
  | some kp =>
    cases hparse : parsePatternExpr kp p with
    | error e2 => simp [Data.rearrange_key, hp, hparse]
    | ok pr =>
      obtain ⟨src, dst⟩ := pr
      cases hs : alookup d.store k with
      | none => simp [Data.rearrange_key, hp, hparse, hs]
      | some t =>
        cases he2 : einopsRearrange t src dst with
        | error e3 => simp [Data.rearrange_key, hp, hparse, hs, he2]
        | ok t2 =>
          exfalso
          simp [Data.rearrange_key, hp, hparse, hs, he2] at h

/-- Unfolding equation of `rearrange` at a cons cell. -/
theorem rearrange_cons (d : Data) (k p : String)
    (rest : List (String × String)) :
    Data.rearrange d ((k, p) :: rest) =
      match Data.rearrange_key d k p with
      | (d1, none) => Data.rearrange d1 rest
      | (d1, some e) => (d1, some e) := rfl

/-- Running `rearrange` over `l1 ++ l2` first runs it over `l1`; if that
leg finishes without an error, iteration continues on `l2` from the reached
state. -/
theorem rearrange_append (l1 l2 : List (String × String)) (d d2 : Data)
    (h : Data.rearrange d l1 = (d2, none)) :
    Data.rearrange d (l1 ++ l2) = Data.rearrange d2 l2 := by
  induction l1 generalizing d with
  | nil =>
    unfold Data.rearrange at h
    injection h with h1 h2
    subst h1
    rfl
  | cons kp rest ih =>
    obtain ⟨k, p⟩ := kp
    rw [rearrange_cons] at h
    rw [List.cons_append, rearrange_cons]
    cases hr : Data.rearrange_key d k p with
    | mk d1 oe =>
      rw [hr] at h
      cases oe with
      | none =>
        change Data.rearrange d1 rest = (d2, none) at h
        change Data.rearrange d1 (rest ++ l2) = Data.rearrange d2 l2
        exact ih d1 h
      | some e =>
        change (d1, some e) = (d2, none) at h
        exact absurd (congrArg Prod.snd h) (by simp)

/-- C5: `rearrange` applies `rearrange_key` pair by pair in iteration order
and is not atomic — if the pairs are `pre ++ (k, p) :: post`, `pre` runs
without error reaching state `d2`, and `rearrange_key` then fails on
`(k, p)`, the overall result is exactly `d2` with that error: every key of
`pre` stays rearranged, and the keys of `post` are never touched. -/
theorem C5_rearrange_not_atomic
    (d d2 : Data) (pre post : List (String × String)) (k p : String)
    (e : Err)
    (h1 : Data.rearrange d pre = (d2, none))
    (h2 : (d2.rearrange_key k p).2 = some e) :
    Data.rearrange d (pre ++ (k, p) :: post) = (d2, some e) := by
  rw [rearrange_append pre ((k, p) :: post) d d2 h1]
  have hst : (d2.rearrange_key k p).1 = d2 := rearrange_key_error_state d2 k p e h2
  have hpair : d2.rearrange_key k p = (d2, some e) := Prod.ext hst h2
  rw [rearrange_cons, hpair]

/-! ### C4: arithmetic toolkit for the transpose round trip -/

theorem div_mul_add (j r q : Nat) (h : r < q) : (j * q + r) / q = j := by
  have hq : 0 < q := Nat.lt_of_le_of_lt (Nat.zero_le r) h
  rw [Nat.mul_comm, Nat.mul_add_div hq, Nat.div_eq_of_lt h, Nat.add_zero]

theorem mod_mul_add (j r q : Nat) (h : r < q) : (j * q + r) % q = r := by
  rw [Nat.mul_comm, Nat.mul_add_mod, Nat.mod_eq_of_lt h]

theorem getD_map_range (f : Nat → Int) (N g : Nat) (h : g < N) :
    ((List.range N).map f).getD g 0 = f g := by
  have hlen : g < ((List.range N).map f).length := by simpa using h
  rw [List.getD_eq_getElem _ _ hlen, List.getElem_map, List.getElem_range]

theorem listProd_three (p q r : Nat) : listProd [p, q, r] = p * (q * r) := by
  simp [listProd]

theorem decodeIdx_three (x p q r : Nat) :
    decodeIdx x [p, q, r] = [x / (q * r), x % (q * r) / r, x % (q * r) % r] := by
  simp [decodeIdx, listProd]

theorem encodeIdx_three (x y z p q r : Nat) :
    encodeIdx [x, y, z] [p, q, r] = x * (q * r) + (y * r + z) := by
  simp [encodeIdx, listProd]

/-- Transposing a well-formed rank-3 tensor by `t n c -> n t c` and then by
`n t c -> t n c` restores it exactly. -/
theorem permute_tnc_roundtrip (t : Tensor) (a b c : Nat)
    (hs : t.shape = [a, b, c]) (hl : t.data.length = a * b * c) :
    permuteTensor (permuteTensor t ["t", "n", "c"] ["n", "t", "c"])
      ["n", "t", "c"] ["t", "n", "c"] = t := by
  obtain ⟨sh, D⟩ := t
  obtain rfl : sh = [a, b, c] := hs
  have hl' : D.length = a * b * c := hl
  have e1 : permuteTensor ⟨[a, b, c], D⟩ ["t", "n", "c"] ["n", "t", "c"] =
      ⟨[b, a, c], (List.range (listProd [b, a, c])).map (fun g =>
        D.getD (encodeIdx [(decodeIdx g [b, a, c]).getD 1 0,
          (decodeIdx g [b, a, c]).getD 0 0,
          (decodeIdx g [b, a, c]).getD 2 0] [a, b, c]) 0)⟩ := rfl
  rw [e1]
  have e2 : permuteTensor
      ⟨[b, a, c], (List.range (listProd [b, a, c])).map (fun g =>
        D.getD (encodeIdx [(decodeIdx g [b, a, c]).getD 1 0,
          (decodeIdx g [b, a, c]).getD 0 0,
          (decodeIdx g [b, a, c]).getD 2 0] [a, b, c]) 0)⟩
      ["n", "t", "c"] ["t", "n", "c"] =
      ⟨[a, b, c], (List.range (listProd [a, b, c])).map (fun g =>
        ((List.range (listProd [b, a, c])).map (fun g2 =>
          D.getD (encodeIdx [(decodeIdx g2 [b, a, c]).getD 1 0,
            (decodeIdx g2 [b, a, c]).getD 0 0,
            (decodeIdx g2 [b, a, c]).getD 2 0] [a, b, c]) 0)).getD
          (encodeIdx [(decodeIdx g [a, b, c]).getD 1 0,
            (decodeIdx g [a, b, c]).getD 0 0,
            (decodeIdx g [a, b, c]).getD 2 0] [b, a, c]) 0)⟩ := rfl
  rw [e2]
  simp only [Tensor.mk.injEq]
  refine ⟨trivial, ?_⟩
  apply List.ext_getElem
  · simp [listProd_three, hl', Nat.mul_assoc]
  · intro g hg1 hg2
    have hg : g < a * (b * c) := by
      have := hg1
      simpa [listProd_three] using this
    have habc : 0 < a * (b * c) := Nat.lt_of_le_of_lt (Nat.zero_le g) hg
    have hc : 0 < c := by
      rcases Nat.eq_zero_or_pos c with h0 | h0
      · subst h0; simp at habc
      · exact h0
    have hb : 0 < b := by
      rcases Nat.eq_zero_or_pos b with h0 | h0
      · subst h0; simp at habc
      · exact h0
    have hbc : 0 < b * c := Nat.mul_pos hb hc
    rw [List.getElem_map, List.getElem_range]
    have hdec : decodeIdx g [a, b, c] =
        [g / (b * c), g % (b * c) / c, g % (b * c) % c] := decodeIdx_three ..
    rw [hdec]
    have o0 : ([g / (b * c), g % (b * c) / c, g % (b * c) % c].getD 0 0) =
        g / (b * c) := rfl
    have o1 : ([g / (b * c), g % (b * c) / c, g % (b * c) % c].getD 1 0) =
        g % (b * c) / c := rfl
    have o2 : ([g / (b * c), g % (b * c) / c, g % (b * c) % c].getD 2 0) =
        g % (b * c) % c := rfl
    rw [o0, o1, o2, encodeIdx_three]
    -- abbreviations for the decoded coordinates
    have hi : g / (b * c) < a := (Nat.div_lt_iff_lt_mul hbc).mpr hg
    have hrb : g % (b * c) < b * c := Nat.mod_lt g hbc
    have hj : g % (b * c) / c < b := (Nat.div_lt_iff_lt_mul hc).mpr hrb
    have hk : g % (b * c) % c < c := Nat.mod_lt _ hc
    have hik : g / (b * c) * c + g % (b * c) % c < a * c := by
      calc g / (b * c) * c + g % (b * c) % c
          < g / (b * c) * c + c := Nat.add_lt_add_left hk _
        _ = (g / (b * c) + 1) * c := (Nat.succ_mul _ c).symm
        _ ≤ a * c := Nat.mul_le_mul_right c hi
    set i := g / (b * c) with hi_def
    set j := g % (b * c) / c with hj_def
    set k := g % (b * c) % c with hk_def
    -- the flat index into the intermediate tensor
    have hG : j * (a * c) + (i * c + k) < b * (a * c) := by
      calc j * (a * c) + (i * c + k)
          < j * (a * c) + a * c := Nat.add_lt_add_left hik _
        _ = (j + 1) * (a * c) := (Nat.succ_mul _ (a * c)).symm
        _ ≤ b * (a * c) := Nat.mul_le_mul_right (a * c) hj
    have hGlp : j * (a * c) + (i * c + k) < listProd [b, a, c] := by
      rw [listProd_three]
      exact hG
    rw [getD_map_range _ _ _ hGlp]
    have hdec2 : decodeIdx (j * (a * c) + (i * c + k)) [b, a, c] =
        [(j * (a * c) + (i * c + k)) / (a * c),
         (j * (a * c) + (i * c + k)) % (a * c) / c,
         (j * (a * c) + (i * c + k)) % (a * c) % c] := decodeIdx_three ..
    have hdiv : (j * (a * c) + (i * c + k)) / (a * c) = j :=
      div_mul_add j (i * c + k) (a * c) hik
    have hmod : (j * (a * c) + (i * c + k)) % (a * c) = i * c + k :=
      mod_mul_add j (i * c + k) (a * c) hik
    have p0 : (decodeIdx (j * (a * c) + (i * c + k)) [b, a, c]).getD 0 0 = j := by
      rw [hdec2]
      show (j * (a * c) + (i * c + k)) / (a * c) = j
      exact hdiv
    have p1 : (decodeIdx (j * (a * c) + (i * c + k)) [b, a, c]).getD 1 0 = i := by
      rw [hdec2]
      show (j * (a * c) + (i * c + k)) % (a * c) / c = i
      rw [hmod]
      exact div_mul_add i k c hk
    have p2 : (decodeIdx (j * (a * c) + (i * c + k)) [b, a, c]).getD 2 0 = k := by
      rw [hdec2]
      show (j * (a * c) + (i * c + k)) % (a * c) % c = k
      rw [hmod]
      exact mod_mul_add i k c hk
    rw [p0, p1, p2, encodeIdx_three]
    have hflat : i * (b * c) + (j * c + k) = g := by
      rw [Nat.mul_comm i (b * c), Nat.mul_comm j c]
      have e3 : c * j + k = g % (b * c) := Nat.div_add_mod (g % (b * c)) c
      rw [e3]
      exact Nat.div_add_mod g (b * c)
    rw [hflat]
    have hgd : g < D.length := by rw [hl', Nat.mul_assoc]; exact hg
    exact List.getD_eq_getElem D 0 hgd


/-- Successful path of `rearrange_key`, given the source-level facts each
scrutinee reduces to: the store and pattern entries are rewritten, and the
transform entry is rearranged when present. -/
theorem rearrange_key_ok (d : Data) (key kp pe src dst : String)
    (t t2 : Tensor)
    (hp : alookup d.pattern key = some kp)
    (hparse : parsePatternExpr kp pe = Except.ok (src, dst))
    (hv : alookup d.store key = some t)
    (he : einopsRearrange t src dst = Except.ok t2) :
    d.rearrange_key key pe =
      ({ store := upsert d.store key t2
         inputView := d.inputView
         targetView := d.targetView
         pattern := upsert d.pattern key dst
         transform :=
           match alookup d.transform key with
           | some tr => upsert d.transform key (tr.rearrangeTr dst)
           | none => d.transform }, none) := by
  simp only [Data.rearrange_key, hp, hparse, hv, he]

/-- C4: on a key recorded as "t n c" holding a well-formed rank-3 tensor,
`rearrange_key` with "t n c -> n t c" and then "n t c -> t n c" succeeds,
restores the recorded pattern to "t n c", and restores the stored value
element-wise (round-trip identity). -/
theorem C4_rearrange_roundtrip (d : Data) (k : String) (t : Tensor)
    (a b c : Nat)
    (hp : alookup d.pattern k = some "t n c")
    (hv : alookup d.store k = some t)
    (hs : t.shape = [a, b, c])
    (hl : t.data.length = a * b * c) :
    (d.rearrange_key k "t n c -> n t c").2 = none ∧
    ((d.rearrange_key k "t n c -> n t c").1.rearrange_key
      k "n t c -> t n c").2 = none ∧
    alookup ((d.rearrange_key k "t n c -> n t c").1.rearrange_key
      k "n t c -> t n c").1.pattern k = some "t n c" ∧
    alookup ((d.rearrange_key k "t n c -> n t c").1.rearrange_key
      k "n t c -> t n c").1.store k = some t := by
  obtain ⟨sh, D⟩ := t
  obtain rfl : sh = [a, b, c] := hs
  have hl' : D.length = a * b * c := hl
  have h1 := rearrange_key_ok d k "t n c" "t n c -> n t c" "t n c" "n t c"
    ⟨[a, b, c], D⟩ (permuteTensor ⟨[a, b, c], D⟩ ["t", "n", "c"] ["n", "t", "c"])
    hp rfl hv rfl
  have hround : permuteTensor
      (permuteTensor ⟨[a, b, c], D⟩ ["t", "n", "c"] ["n", "t", "c"])
      ["n", "t", "c"] ["t", "n", "c"] = ⟨[a, b, c], D⟩ :=
    permute_tnc_roundtrip ⟨[a, b, c], D⟩ a b c rfl hl'
  have he2 : einopsRearrange
      (permuteTensor ⟨[a, b, c], D⟩ ["t", "n", "c"] ["n", "t", "c"])
      "n t c" "t n c" = Except.ok (⟨[a, b, c], D⟩ : Tensor) := by
    have hstep : einopsRearrange
        (permuteTensor ⟨[a, b, c], D⟩ ["t", "n", "c"] ["n", "t", "c"])
        "n t c" "t n c" = Except.ok (permuteTensor
          (permuteTensor ⟨[a, b, c], D⟩ ["t", "n", "c"] ["n", "t", "c"])
          ["n", "t", "c"] ["t", "n", "c"]) := rfl
    rw [hstep, hround]
  have h2 := rearrange_key_ok
    ⟨upsert d.store k
        (permuteTensor ⟨[a, b, c], D⟩ ["t", "n", "c"] ["n", "t", "c"]),
      d.inputView, d.targetView, upsert d.pattern k "n t c",
      match alookup d.transform k with
      | some tr => upsert d.transform k (tr.rearrangeTr "n t c")
      | none => d.transform⟩
    k "n t c" "n t c -> t n c" "n t c" "t n c"
    (permuteTensor ⟨[a, b, c], D⟩ ["t", "n", "c"] ["n", "t", "c"])
    ⟨[a, b, c], D⟩
    (alookup_upsert_self d.pattern k "n t c") rfl
    (alookup_upsert_self d.store k _) he2
  refine ⟨?_, ?_, ?_, ?_⟩
  · rw [h1]
  · rw [h1]
    exact congrArg Prod.snd h2
  · rw [h1]
    show alookup (Data.rearrange_key _ k "n t c -> t n c").1.pattern k =
      some "t n c"
    rw [h2]
    exact alookup_upsert_self _ k "t n c"
  · rw [h1]
    show alookup (Data.rearrange_key _ k "n t c -> t n c").1.store k =
      some (⟨[a, b, c], D⟩ : Tensor)
    rw [h2]
    exact alookup_upsert_self _ k _

/-- Concrete well-formed tensor for the C4 witness: shape 2x3x4, data
0..23. -/
def tC4 : Tensor := ⟨[2, 3, 4], (List.range 24).map Int.ofNat⟩

/-- Concrete record for the C4 witness. -/
def dC4 : Data := ⟨[("x", tC4)], ⟨["x"]⟩, ⟨[]⟩, [("x", "t n c")], []⟩

/-- C4 witness: the round trip on the concrete record. -/
theorem C4_witness :
    (dC4.rearrange_key "x" "t n c -> n t c").2 = none ∧
    ((dC4.rearrange_key "x" "t n c -> n t c").1.rearrange_key
      "x" "n t c -> t n c").2 = none ∧
    alookup ((dC4.rearrange_key "x" "t n c -> n t c").1.rearrange_key
      "x" "n t c -> t n c").1.pattern "x" = some "t n c" ∧
    alookup ((dC4.rearrange_key "x" "t n c -> n t c").1.rearrange_key
      "x" "n t c -> t n c").1.store "x" = some tC4 :=
  C4_rearrange_roundtrip dC4 "x" tC4 2 3 4 (by decide) (by decide)
    (by decide) (by decide)

/-! ### C8 -/

/-- The C8 scenario's tensor: shape 12x5x2 (T=12, N=5, C=2), data 0..119. -/
def tC8 : Tensor := ⟨[12, 5, 2], (List.range 120).map Int.ofNat⟩

/-- The record the C8 construction produces. -/
def dC8 : Data := ⟨[("x", tC8)], ⟨["x"]⟩, ⟨[]⟩, [("x", "t n c")], []⟩

/-- C8: constructing a record with input x of shape (12, 5, 2) and pattern
"t n c", then calling `rearrange_key("x", "n t c")` (destination-only, the
source inferred from the recorded pattern) succeeds, records pattern
"n t c" for x, and stores a value of shape (5, 12, 2). -/
theorem C8_destination_only_scenario :
    Data.init [("x", tC8)] [] none [] [("x", "t n c")] [] = Except.ok dC8 ∧
    (dC8.rearrange_key "x" "n t c").2 = none ∧
    alookup (dC8.rearrange_key "x" "n t c").1.pattern "x" = some "n t c" ∧
    (alookup (dC8.rearrange_key "x" "n t c").1.store "x").map Tensor.shape =
      some [5, 12, 2] := by decide

/-- Concrete record for the C5 witness: keys "x" (pattern "t n") and "y"
(pattern "a b"). -/
def dC5 : Data :=
  ⟨[("x", ⟨[1, 1], [5]⟩), ("y", ⟨[1], [7]⟩)], ⟨["x", "y"]⟩, ⟨[]⟩,
    [("x", "t n"), ("y", "a b")], []⟩

/-- The state after the first leg of the C5 witness: "x" rearranged to
"n t", "y" untouched. -/
def dC5' : Data :=
  ⟨[("x", ⟨[1, 1], [5]⟩), ("y", ⟨[1], [7]⟩)], ⟨["x", "y"]⟩, ⟨[]⟩,
    [("x", "n t"), ("y", "a b")], []⟩

/-- C5 witness: a batch rearrange that first rearranges "x", then fails on
"y" with a source-pattern mismatch; the result is the post-"x" state plus
the error, and the trailing pair is never applied. -/
theorem C5_witness :
    Data.rearrange dC5
        ([("x", "n t")] ++ ("y", "b a -> a b") :: [("y", "a b -> b a")]) =
      (dC5', some (Err.patternMismatch "b a" "a b")) :=
  C5_rearrange_not_atomic dC5 dC5' [("x", "n t")] [("y", "a b -> b a")]
    "y" "b a -> a b" (Err.patternMismatch "b a" "a b") (by decide) (by decide)

end Tsl
